import Mathlib

/-!
Verification of the PDF-ledger reconciliation program (`app-new5.py`).

The Python source is shallowly embedded: strings are `String`/`List Char`,
Python's `re.search` over the three concrete patterns the program uses is
modelled by executable searchers over `List Char`, Python sets of indices by
`List Nat` (only membership and insertion are used), and `datetime` values by
`(year, month, day)` triples together with their proleptic-Gregorian ordinal
(the value of `datetime.toordinal`, so that `datetime` subtraction in days is
ordinal subtraction).

Modelling conventions, noted once here:
* Python's `\d` in a `str` pattern matches any Unicode decimal digit.  The
  program only ever manipulates ASCII, Devanagari and Gujarati digits, so
  `isDigitChar` is Unicode `Nd` restricted to those three blocks.
* `str.upper()` is modelled characterwise on ASCII letters; the non-ASCII
  characters appearing in this program's data are caseless.
* Page geometry (`x < width / 2`) uses `ℚ` for the real-valued coordinates.
-/

/-- One parsed ledger entry, as built by `parse_entry` in the source:
a dict with keys `Amount`, `Date`, `Raw`, all strings. -/
structure Entry where
  Amount : String
  Date : String
  Raw : String
deriving DecidableEq

/-- One output row of `compare_entries`: a dict with the seven keys used by
the source. -/
structure Row where
  status : String
  Party1_Amount : String
  Party2_Amount : String
  Party1_Date : String
  Party2_Date : String
  Party1_Credit : String
  Party2_Debit : String
deriving DecidableEq

/-- ASCII digit `0`-`9`. -/
def isAsciiDigit (c : Char) : Bool :=
  '0' ≤ c && c ≤ '9'

/-- Devanagari (Hindi) digit, U+0966..U+096F — the string `"०१२३४५६७८९"`
in `normalize_amount`. -/
def isDevanagariDigit (c : Char) : Bool :=
  0x0966 ≤ c.toNat && c.toNat ≤ 0x096F

/-- Gujarati digit, U+0AE6..U+0AEF — the string `"૦૧૨૩૪૫૬૭૮૯"` in the
source. -/
def isGujaratiDigit (c : Char) : Bool :=
  0x0AE6 ≤ c.toNat && c.toNat ≤ 0x0AEF

/-- Python's `\d` (Unicode decimal digit), restricted to the three digit
scripts this program manipulates. -/
def isDigitChar (c : Char) : Bool :=
  isAsciiDigit c || isDevanagariDigit c || isGujaratiDigit c

/-- The translation table of `parse_entry`:
`str.maketrans(gujarati_digits, eng_digits)` maps each Gujarati digit to the
ASCII digit of the same value and leaves every other character unchanged. -/
def gujToAscii (c : Char) : Char :=
  if isGujaratiDigit c then Char.ofNat (c.toNat - 0x0AE6 + 0x30) else c

/-- The translation table of `normalize_amount`:
`str.maketrans(gujarati_digits, hindi, eng_digits)` maps each Gujarati digit
to the Devanagari digit of the same value, DELETES every ASCII digit (the
third `maketrans` argument), and leaves every other character unchanged. -/
def gujToHindiDelAscii (l : List Char) : List Char :=
  l.filterMap fun c =>
    if isAsciiDigit c then none
    else if isGujaratiDigit c then some (Char.ofNat (c.toNat - 0x0AE6 + 0x0966))
    else some c

/-- `re.sub(r"[^\d.]", "", s)`: keep only Unicode digits and `.`. -/
def digitDotFilter (l : List Char) : List Char :=
  l.filter fun c => isDigitChar c || c == '.'

/-- `normalize_amount` from the source: Gujarati→Devanagari translation with
ASCII-digit deletion, then `re.sub(r"[^\d.]", "", ...)`. -/
def normalize_amount (s : String) : String :=
  (digitDotFilter (gujToHindiDelAscii s.toList)).asString

/-- The other historical normalization variant named by the spec: the direct
Gujarati→ASCII mapping that `parse_entry` uses, followed by the same generic
digit extraction `re.sub(r"[^\d.]", "", ...)` as `normalize_amount`. -/
def normalize_amount_direct (s : String) : String :=
  (digitDotFilter (s.toList.map gujToAscii)).asString

/-- Character class `[\d,]` of the source's amount pattern. -/
def isAmountChar (c : Char) : Bool :=
  isDigitChar c || c == ','

/-- Attempt of the regex `[\d,]+\.\d{2}` at one fixed start position.
`[\d,]+` is greedy; since any shorter run is followed by another `[\d,]`
character (never `.`), only the maximal run can be followed by `\.\d{2}`,
so no further backtracking arises. -/
def matchAmountAt (l : List Char) : Option (List Char) :=
  match l.drop (l.takeWhile isAmountChar).length with
  | cdot :: c1 :: c2 :: _ =>
    if cdot = '.' ∧ (l.takeWhile isAmountChar) ≠ [] ∧
        isDigitChar c1 ∧ isDigitChar c2 then
      some ((l.takeWhile isAmountChar) ++ [cdot, c1, c2])
    else none
  | _ => none

/-- `re.search(r"([\d,]+\.\d{2})", ...)`: try every start position left to
right, return the first (leftmost) match. -/
def findAmount : List Char → Option (List Char)
  | [] => none
  | c :: rest =>
    match matchAmountAt (c :: rest) with
    | some m => some m
    | none => findAmount rest

/-- Attempt of the regex `\d{2}/\d{2}/\d{4}` at one fixed start position. -/
def matchDateAt (l : List Char) : Option (List Char) :=
  match l with
  | a :: b :: s1 :: c :: d :: s2 :: e :: f :: g :: h :: _ =>
    if isDigitChar a && isDigitChar b && s1 == '/' && isDigitChar c &&
        isDigitChar d && s2 == '/' && isDigitChar e && isDigitChar f &&
        isDigitChar g && isDigitChar h then
      some [a, b, s1, c, d, s2, e, f, g, h]
    else none
  | _ => none

/-- `re.search(r"(\d{2}/\d{2}/\d{4})", ...)`. -/
def findDate : List Char → Option (List Char)
  | [] => none
  | c :: rest =>
    match matchDateAt (c :: rest) with
    | some m => some m
    | none => findDate rest

/-- `parse_entry` from the source: translate Gujarati digits to ASCII, search
for the amount token; if found, strip commas from it, search for a date token,
and build the entry (whose `Raw` is the translated line). -/
def parse_entry (text : String) : Option Entry :=
  match findAmount (text.toList.map gujToAscii) with
  | some am =>
    some { Amount := (am.filter fun c => c != ',').asString
           Date := match findDate (text.toList.map gujToAscii) with
                   | some d => d.asString
                   | none => ""
           Raw := (text.toList.map gujToAscii).asString }
  | none => none

/-- Attempt of the spec's pattern `\d+\.\d{2}` (digits only before the dot)
at one fixed start position.  Used to state claim C3, which is phrased with
this pattern rather than the source's `[\d,]+\.\d{2}`. -/
def matchPlainAmountAt (l : List Char) : Option (List Char) :=
  match l.drop (l.takeWhile isDigitChar).length with
  | cdot :: c1 :: c2 :: _ =>
    if cdot = '.' ∧ (l.takeWhile isDigitChar) ≠ [] ∧
        isDigitChar c1 ∧ isDigitChar c2 then
      some ((l.takeWhile isDigitChar) ++ [cdot, c1, c2])
    else none
  | _ => none

/-- Whether the line contains a token of shape `\d+\.\d{2}` (the spec's
rejection criterion in claim C3). -/
def hasPlainAmount : List Char → Bool
  | [] => false
  | c :: rest =>
    match matchPlainAmountAt (c :: rest) with
    | some _ => true
    | none => hasPlainAmount rest

/-- An amount string ends in a decimal point followed by exactly two digits:
its last three characters are `.` then two digits. -/
def endsInDotTwoDigits (a : String) : Bool :=
  match a.toList.reverse with
  | c2 :: c1 :: cdot :: _ => cdot == '.' && isDigitChar c1 && isDigitChar c2
  | _ => false

/-- Numeric value of a Unicode decimal digit (Python's `int()` accepts any
`Nd` digit), restricted to the three scripts in play. -/
def digitVal (c : Char) : Nat :=
  if isAsciiDigit c then c.toNat - 0x30
  else if isDevanagariDigit c then c.toNat - 0x0966
  else if isGujaratiDigit c then c.toNat - 0x0AE6
  else 0

/-- ASCII `1`-`9` (the regex class `[1-9]`, which matches ASCII only). -/
def isAscii19 (c : Char) : Bool :=
  '1' ≤ c && c ≤ '9'

/-- CPython `_strptime` pattern for `%d`:
`3[0-1]|[1-2]\d|0[1-9]|[1-9]| [1-9]` (the last alternative is a space-padded
single digit), required (by the `/` literal that follows and the
trailing-data check) to cover a whole slash-free field.  Character ranges
like `[1-9]` are ASCII; `\d` is any Unicode digit. -/
def parseDay (s : List Char) : Option Nat :=
  match s with
  | [c] => if isAscii19 c then some (c.toNat - 0x30) else none
  | [c1, c2] =>
    if c1 == '3' && (c2 == '0' || c2 == '1') then some (30 + (c2.toNat - 0x30))
    else if (c1 == '1' || c1 == '2') && isDigitChar c2 then
      some (10 * (c1.toNat - 0x30) + digitVal c2)
    else if c1 == '0' && isAscii19 c2 then some (c2.toNat - 0x30)
    else if c1 == ' ' && isAscii19 c2 then some (c2.toNat - 0x30)
    else none
  | _ => none

/-- CPython `_strptime` pattern for `%m`: `1[0-2]|0[1-9]|[1-9]`, whole-field
as for `%d`. -/
def parseMonth (s : List Char) : Option Nat :=
  match s with
  | [c] => if isAscii19 c then some (c.toNat - 0x30) else none
  | [c1, c2] =>
    if c1 == '1' && (c2 == '0' || c2 == '1' || c2 == '2') then
      some (10 + (c2.toNat - 0x30))
    else if c1 == '0' && isAscii19 c2 then some (c2.toNat - 0x30)
    else none
  | _ => none

/-- CPython `_strptime` pattern for `%Y`: `\d\d\d\d`. -/
def parseYear (s : List Char) : Option Nat :=
  match s with
  | [c1, c2, c3, c4] =>
    if isDigitChar c1 && isDigitChar c2 && isDigitChar c3 && isDigitChar c4 then
      some (((digitVal c1 * 10 + digitVal c2) * 10 + digitVal c3) * 10 + digitVal c4)
    else none
  | _ => none

/-- Gregorian leap-year rule, as in `datetime`. -/
def isLeapYear (y : Nat) : Bool :=
  y % 4 == 0 && (y % 100 != 0 || y % 400 == 0)

/-- Length of a month, as validated by the `datetime` constructor. -/
def daysInMonth (y m : Nat) : Nat :=
  if m == 2 then (if isLeapYear y then 29 else 28)
  else if m == 4 || m == 6 || m == 9 || m == 11 then 30
  else 31

/-- Days in the months strictly before month `m` of year `y`. -/
def daysBeforeMonth (y m : Nat) : Nat :=
  (match m with
   | 1 => 0 | 2 => 31 | 3 => 59 | 4 => 90 | 5 => 120 | 6 => 151
   | 7 => 181 | 8 => 212 | 9 => 243 | 10 => 273 | 11 => 304 | _ => 334) +
  (if isLeapYear y && decide (2 < m) then 1 else 0)

/-- `datetime.toordinal()`: day number of `(y, m, d)` in the proleptic
Gregorian calendar, with 01/01/0001 being day 1.  `datetime` values built by
`parse_date_safe` are midnights, so `(d1 - d2).days` is the difference of
their ordinals. -/
def toOrdinal : Nat × Nat × Nat → Int
  | (y, m, d) =>
    365 * ((y : Int) - 1) + ((y - 1) / 4 : Nat) - ((y - 1) / 100 : Nat) +
      ((y - 1) / 400 : Nat) + (daysBeforeMonth y m : Nat) + (d : Nat)

/-- Splitting a character list at `/` (the two literal slashes of the format
`"%d/%m/%Y"` anchor the three fields; the fields themselves are slash-free,
so full-string regex matching coincides with fieldwise matching). -/
def splitSlash : List Char → List Char → List (List Char)
  | [], acc => [acc.reverse]
  | '/' :: rest, acc => acc.reverse :: splitSlash rest []
  | c :: rest, acc => splitSlash rest (c :: acc)

/-- `parse_date_safe` from the source:
`datetime.strptime(date_str, "%d/%m/%Y")` returning `None` on any failure.
The `datetime` constructor additionally requires `MINYEAR ≤ year` and that
the day fit the month. -/
def parse_date_safe (s : String) : Option (Nat × Nat × Nat) :=
  match splitSlash s.toList [] with
  | [ds, ms, ys] =>
    match parseDay ds, parseMonth ms, parseYear ys with
    | some d, some m, some y =>
      if 1 ≤ y ∧ d ≤ daysInMonth y m then some (y, m, d) else none
    | _, _, _ => none
  | _ => none

/-- `is_date_match` from the source: both dates must parse, and the absolute
difference `abs((d1 - d2).days)` must be at most 1. -/
def is_date_match (d1s d2s : String) : Bool :=
  match parse_date_safe d1s, parse_date_safe d2s with
  | some d1, some d2 => (toOrdinal d1 - toOrdinal d2).natAbs ≤ 1
  | _, _ => false

/-- `str.upper()`, characterwise on ASCII letters (sufficient for the
character repertoire this program manipulates). -/
def pyUpper (c : Char) : Char :=
  if 'a' ≤ c && c ≤ 'z' then Char.ofNat (c.toNat - 0x20) else c

/-- ASCII `A`-`Z` (the regex class `[A-Z]`). -/
def isUpperAlpha (c : Char) : Bool :=
  'A' ≤ c && c ≤ 'Z'

/-- Attempt of the regex `[A-Z]{2,}[0-9]*\/?\d*(?:-\d+)?` at one fixed start
position.  After the mandatory `[A-Z]{2,}`, every component is optional, so
the greedy maximal runs always succeed with no backtracking.  `[0-9]` is
ASCII-only; `\d` is any Unicode digit. -/
def billMatchAt (l : List Char) : Option (List Char) :=
  let run := l.takeWhile isUpperAlpha
  if run.length < 2 then none
  else
    let r1 := l.drop run.length
    let ds := r1.takeWhile isAsciiDigit
    let r2 := r1.drop ds.length
    let sl : List Char := match r2 with
      | '/' :: _ => ['/']
      | _ => []
    let r3 := r2.drop sl.length
    let ds2 := r3.takeWhile isDigitChar
    let r4 := r3.drop ds2.length
    let dash : List Char := match r4 with
      | '-' :: t => if (t.takeWhile isDigitChar).isEmpty then [] else '-' :: t.takeWhile isDigitChar
      | _ => []
    some (run ++ ds ++ sl ++ ds2 ++ dash)

/-- `re.search` for the bill-number pattern: leftmost match. -/
def billSearch : List Char → Option (List Char)
  | [] => none
  | c :: rest =>
    match billMatchAt (c :: rest) with
    | some m => some m
    | none => billSearch rest

/-- `extract_bill_no` from the source: search the uppercased text; the whole
match, or `""` when there is none. -/
def extract_bill_no (text : String) : String :=
  match billSearch (text.toList.map pyUpper) with
  | some m => m.asString
  | none => ""

/-- `is_match` from the source: mandatory amount equality, then the `Date`
and `BillNo` criteria when selected (criteria being the list of strings the
form posts). -/
def is_match (criteria : List String) (e1 e2 : Entry) : Bool :=
  if e1.Amount ≠ e2.Amount then false
  else if criteria.contains "Date" && !(is_date_match e1.Date e2.Date) then false
  else if criteria.contains "BillNo" &&
      (extract_bill_no e1.Raw ≠ extract_bill_no e2.Raw) then false
  else true

/-- A Matched row, as built in the `party1` loop when a partner was found. -/
def matchedRow (e1 e2 : Entry) : Row :=
  { status := "✅ Match"
    Party1_Amount := e1.Amount, Party2_Amount := e2.Amount
    Party1_Date := e1.Date, Party2_Date := e2.Date
    Party1_Credit := e1.Raw, Party2_Debit := e2.Raw }

/-- An Unmatched row for a `party1` entry: `party2` fields are `""`. -/
def unmatchedRow1 (e1 : Entry) : Row :=
  { status := "❌ No Match"
    Party1_Amount := e1.Amount, Party2_Amount := ""
    Party1_Date := e1.Date, Party2_Date := ""
    Party1_Credit := e1.Raw, Party2_Debit := "" }

/-- An Unmatched row for a leftover `party2` entry: `party1` fields are `""`. -/
def unmatchedRow2 (e2 : Entry) : Row :=
  { status := "❌ No Match"
    Party1_Amount := "", Party2_Amount := e2.Amount
    Party1_Date := "", Party2_Date := e2.Date
    Party1_Credit := "", Party2_Debit := e2.Raw }

/-- The inner `for j, e2 in enumerate(party2)` loop of `compare_entries`,
carried out from index `j`: skip consumed indices, stop at the first
remaining entry that `is_match` accepts. -/
def findMatchAux (crit : List String) (e1 : Entry) (consumed : List Nat) :
    Nat → List Entry → Option (Nat × Entry)
  | _, [] => none
  | j, e2 :: rest =>
    if consumed.contains j then findMatchAux crit e1 consumed (j + 1) rest
    else if is_match crit e1 e2 then some (j, e2)
    else findMatchAux crit e1 consumed (j + 1) rest

/-- The inner loop started at index 0. -/
def findMatch (crit : List String) (e1 : Entry) (p2 : List Entry)
    (consumed : List Nat) : Option (Nat × Entry) :=
  findMatchAux crit e1 consumed 0 p2

/-- The outer `for i, e1 in enumerate(party1)` loop of `compare_entries`,
returning the emitted rows and the final set of consumed `party2` indices
(the Python set `matched_indices`, modelled by the list of its elements). -/
def compareLoop (crit : List String) (p2 : List Entry) :
    List Entry → List Nat → List Row × List Nat
  | [], consumed => ([], consumed)
  | e1 :: rest, consumed =>
    match findMatch crit e1 p2 consumed with
    | some (j, e2) =>
      (matchedRow e1 e2 :: (compareLoop crit p2 rest (j :: consumed)).1,
       (compareLoop crit p2 rest (j :: consumed)).2)
    | none =>
      (unmatchedRow1 e1 :: (compareLoop crit p2 rest consumed).1,
       (compareLoop crit p2 rest consumed).2)

/-- Python's `enumerate`, with explicit start index. -/
def pyEnumFrom {α : Type} (n : Nat) : List α → List (Nat × α)
  | [] => []
  | a :: l => (n, a) :: pyEnumFrom (n + 1) l

/-- `compare_entries` from the source: the `party1` loop, then one Unmatched
row for every `party2` index that was never consumed, in order. -/
def compare_entries (party1 party2 : List Entry) (criteria : List String) :
    List Row :=
  (compareLoop criteria party2 party1 []).1 ++
    ((pyEnumFrom 0 party2).filter
        (fun p => !((compareLoop criteria party2 party1 []).2.contains p.1))).map
      (fun p => unmatchedRow2 p.2)

/-- The `party1` loop instrumented to also record, for every Matched row, the
pair (position in `party1`, consumed position in `party2`).  It consumes
indices exactly as `compareLoop` does (`comparePairsLoop_consumed`). -/
def comparePairsLoop (crit : List String) (p2 : List Entry) :
    Nat → List Entry → List Nat → List (Nat × Nat) × List Nat
  | _, [], consumed => ([], consumed)
  | i, e1 :: rest, consumed =>
    match findMatch crit e1 p2 consumed with
    | some (j, _) =>
      ((i, j) :: (comparePairsLoop crit p2 (i + 1) rest (j :: consumed)).1,
       (comparePairsLoop crit p2 (i + 1) rest (j :: consumed)).2)
    | none =>
      ((comparePairsLoop crit p2 (i + 1) rest consumed).1,
       (comparePairsLoop crit p2 (i + 1) rest consumed).2)

/-- A page column. -/
inductive Column where
  | left : Column
  | right : Column
deriving DecidableEq

/-- The column decision of `extract_data`: `x < mid_x` with
`mid_x = page.rect.width / 2`; left is the `credit` list. -/
def classifyColumn (x width : ℚ) : Column :=
  if x < width / 2 then Column.left else Column.right

/-- One line of a decoded page: the horizontal start offset `bbox[0]` and the
whitespace-joined span text (the PDF geometry decoder supplying these is the
excluded I/O boundary). -/
structure PdfLine where
  x : ℚ
  text : String

/-- One decoded page: its width and its lines in reading order. -/
structure PdfPage where
  width : ℚ
  lines : List PdfLine

/-- `extract_data` over an already-decoded document: parse every nonempty
line and route the entry to the credit (left) or debit (right) list by the
column decision for the line's start offset. -/
def extract_data (doc : List PdfPage) : List Entry × List Entry :=
  doc.foldl
    (fun acc page =>
      page.lines.foldl
        (fun acc2 line =>
          if line.text = "" then acc2
          else
            match parse_entry line.text with
            | some e =>
              if classifyColumn line.x page.width = Column.left then
                (acc2.1 ++ [e], acc2.2)
              else (acc2.1, acc2.2 ++ [e])
            | none => acc2)
        acc)
    ([], [])


/-! ### The inner scan of `compare_entries`: first-match characterization -/

theorem findMatchAux_some_spec (crit : List String) (e1 : Entry)
    (consumed : List Nat) :
    ∀ (l : List Entry) (j0 j : Nat) (e2 : Entry),
    findMatchAux crit e1 consumed j0 l = some (j, e2) →
    ∃ k, j = j0 + k ∧ l[k]? = some e2 ∧ consumed.contains j = false ∧
      is_match crit e1 e2 = true ∧
      ∀ k' e', k' < k → l[k']? = some e' →
        consumed.contains (j0 + k') = false → is_match crit e1 e' = false := by
  intro l
  induction l with
  | nil => intro j0 j e2 h; simp [findMatchAux] at h
  | cons c rest ih =>
    intro j0 j e2 h
    cases hc : consumed.contains j0 with
    | true =>
      simp only [findMatchAux, hc, if_true] at h
      obtain ⟨k, hk, hget, hcon, hm, hmin⟩ := ih (j0 + 1) j e2 h
      refine ⟨k + 1, by omega, by simpa using hget, hcon, hm, ?_⟩
      intro k' e' hk' hget' hcon'
      cases k' with
      | zero =>
        simp only [Nat.add_zero] at hcon'
        rw [hc] at hcon'
        exact Bool.noConfusion hcon'
      | succ k'' =>
        refine hmin k'' e' (by omega) (by simpa using hget') ?_
        have : j0 + (k'' + 1) = j0 + 1 + k'' := by omega
        rw [this] at hcon'
        exact hcon'
    | false =>
      cases hm : is_match crit e1 c with
      | true =>
        simp only [findMatchAux, hc, hm, if_true, Bool.false_eq_true,
          if_false, Option.some.injEq, Prod.mk.injEq] at h
        obtain ⟨h1, h2⟩ := h
        subst h1
        subst h2
        exact ⟨0, by omega, by simp, hc, hm, by intro k' e' hk'; omega⟩
      | false =>
        simp only [findMatchAux, hc, hm, Bool.false_eq_true, if_false] at h
        obtain ⟨k, hk, hget, hcon, hmm, hmin⟩ := ih (j0 + 1) j e2 h
        refine ⟨k + 1, by omega, by simpa using hget, hcon, hmm, ?_⟩
        intro k' e' hk' hget' hcon'
        cases k' with
        | zero =>
          have : c = e' := by simpa using hget'
          rw [← this]; exact hm
        | succ k'' =>
          refine hmin k'' e' (by omega) (by simpa using hget') ?_
          have : j0 + (k'' + 1) = j0 + 1 + k'' := by omega
          rw [this] at hcon'
          exact hcon'

theorem findMatchAux_none_spec (crit : List String) (e1 : Entry)
    (consumed : List Nat) :
    ∀ (l : List Entry) (j0 : Nat),
    findMatchAux crit e1 consumed j0 l = none →
    ∀ k e', l[k]? = some e' → consumed.contains (j0 + k) = false →
      is_match crit e1 e' = false := by
  intro l
  induction l with
  | nil => intro j0 _ k e' hget; simp at hget
  | cons c rest ih =>
    intro j0 h k e' hget hcon
    cases hc : consumed.contains j0 with
    | true =>
      simp only [findMatchAux, hc, if_true] at h
      cases k with
      | zero =>
        simp only [Nat.add_zero] at hcon
        rw [hc] at hcon
        exact Bool.noConfusion hcon
      | succ k'' =>
        refine ih (j0 + 1) h k'' e' (by simpa using hget) ?_
        have : j0 + (k'' + 1) = j0 + 1 + k'' := by omega
        rw [this] at hcon
        exact hcon
    | false =>
      cases hm : is_match crit e1 c with
      | true =>
        simp only [findMatchAux, hc, hm, Bool.false_eq_true, if_false, if_true] at h
        exact Option.noConfusion h
      | false =>
        simp only [findMatchAux, hc, hm, Bool.false_eq_true, if_false] at h
        cases k with
        | zero =>
          have : c = e' := by simpa using hget
          rw [← this]; exact hm
        | succ k'' =>
          refine ih (j0 + 1) h k'' e' (by simpa using hget) ?_
          have : j0 + (k'' + 1) = j0 + 1 + k'' := by omega
          rw [this] at hcon
          exact hcon

theorem findMatch_some_spec (crit : List String) (e1 : Entry) (p2 : List Entry)
    (consumed : List Nat) (j : Nat) (e2 : Entry)
    (h : findMatch crit e1 p2 consumed = some (j, e2)) :
    p2[j]? = some e2 ∧ consumed.contains j = false ∧
      is_match crit e1 e2 = true ∧
      ∀ k e', k < j → p2[k]? = some e' → consumed.contains k = false →
        is_match crit e1 e' = false := by
  obtain ⟨k, hk, hget, hcon, hm, hmin⟩ :=
    findMatchAux_some_spec crit e1 consumed p2 0 j e2 h
  have hk0 : j = k := by omega
  subst hk0
  refine ⟨hget, hcon, hm, ?_⟩
  intro k' e' hk' hget' hcon'
  exact hmin k' e' hk' hget' (by simpa using hcon')

theorem findMatch_none_spec (crit : List String) (e1 : Entry) (p2 : List Entry)
    (consumed : List Nat) (h : findMatch crit e1 p2 consumed = none) :
    ∀ k e', p2[k]? = some e' → consumed.contains k = false →
      is_match crit e1 e' = false := by
  intro k e' hget hcon
  exact findMatchAux_none_spec crit e1 consumed p2 0 h k e' hget (by simpa using hcon)

/-! ### Claim C1 -/

/-- C1: `compare_entries` processes `partyA` in order; for each entry `a` the
inner scan pairs `a` with the first not-yet-consumed `partyB` entry `b` (in
`partyB`'s order, so with the least unconsumed matching index) satisfying
`is_match`, marks that index consumed, and emits the Matched row for the
pair; if no unconsumed entry matches, it emits the Unmatched row populated
only on `a`'s side and consumes nothing. -/
theorem compare_greedy_first_match (crit : List String) (e1 : Entry)
    (rest p2 : List Entry) (consumed : List Nat) :
    (∀ j e2, findMatch crit e1 p2 consumed = some (j, e2) →
      p2[j]? = some e2 ∧ consumed.contains j = false ∧
        is_match crit e1 e2 = true ∧
        (∀ k e', k < j → p2[k]? = some e' → consumed.contains k = false →
          is_match crit e1 e' = false) ∧
        compareLoop crit p2 (e1 :: rest) consumed =
          (matchedRow e1 e2 :: (compareLoop crit p2 rest (j :: consumed)).1,
           (compareLoop crit p2 rest (j :: consumed)).2)) ∧
    (findMatch crit e1 p2 consumed = none →
      (∀ k e', p2[k]? = some e' → consumed.contains k = false →
        is_match crit e1 e' = false) ∧
      compareLoop crit p2 (e1 :: rest) consumed =
        (unmatchedRow1 e1 :: (compareLoop crit p2 rest consumed).1,
         (compareLoop crit p2 rest consumed).2)) := by
  constructor
  · intro j e2 h
    obtain ⟨hget, hcon, hm, hmin⟩ := findMatch_some_spec crit e1 p2 consumed j e2 h
    exact ⟨hget, hcon, hm, hmin, by rw [compareLoop, h]⟩
  · intro h
    exact ⟨findMatch_none_spec crit e1 p2 consumed h, by rw [compareLoop, h]⟩

/-- The `partyA` entry of the spec's greedy-determinism example. -/
def exEntryA : Entry := { Amount := "100.00", Date := "", Raw := "A" }

/-- The first `partyB` entry (`raw:"X"`) of the greedy example. -/
def exEntryBX : Entry := { Amount := "100.00", Date := "", Raw := "X" }

/-- The second `partyB` entry (`raw:"Y"`) of the greedy example. -/
def exEntryBY : Entry := { Amount := "100.00", Date := "", Raw := "Y" }

/-- An entry matching none of the example `partyB` entries. -/
def exEntryC : Entry := { Amount := "7.00", Date := "", Raw := "C" }

/-- Witness for C1 at the spec's greedy-determinism example (criteria `{}`):
with both `partyB` entries unconsumed the scan returns index 0 (`"X"`), the
step emits the Matched row and consumes index 0; and for an entry matching
nothing the step emits the one-sided Unmatched row. -/
theorem compare_greedy_first_match_witness :
    ([exEntryBX, exEntryBY][0]? = some exEntryBX ∧
      is_match [] exEntryA exEntryBX = true ∧
      compareLoop [] [exEntryBX, exEntryBY] [exEntryA] [] =
        (matchedRow exEntryA exEntryBX ::
          (compareLoop [] [exEntryBX, exEntryBY] [] [0]).1,
         (compareLoop [] [exEntryBX, exEntryBY] [] [0]).2)) ∧
    compareLoop [] [exEntryBX] [exEntryC] [] =
      (unmatchedRow1 exEntryC :: (compareLoop [] [exEntryBX] [] []).1,
       (compareLoop [] [exEntryBX] [] []).2) := by
  constructor
  · have h := (compare_greedy_first_match [] exEntryA [] [exEntryBX, exEntryBY] []).1
      0 exEntryBX (by decide)
    exact ⟨h.1, h.2.2.1, h.2.2.2.2⟩
  · exact ((compare_greedy_first_match [] exEntryC [] [exEntryBX] []).2 (by decide)).2

/-! ### Claim C2 -/

theorem pyEnumFrom_map_snd {α : Type} : ∀ (n : Nat) (l : List α),
    (pyEnumFrom n l).map Prod.snd = l := by
  intro n l
  induction l generalizing n with
  | nil => rfl
  | cons a t ih => simp [pyEnumFrom, ih]

theorem pyEnumFrom_fst_bounds {α : Type} : ∀ (l : List α) (n : Nat)
    (p : Nat × α), p ∈ pyEnumFrom n l → n ≤ p.1 ∧ p.1 < n + l.length := by
  intro l
  induction l with
  | nil => intro n p hp; simp [pyEnumFrom] at hp
  | cons a t ih =>
    intro n p hp
    simp only [pyEnumFrom, List.mem_cons] at hp
    rcases hp with hp | hp
    · subst hp
      simp only [List.length_cons]
      exact ⟨Nat.le_refl n, by omega⟩
    · have := ih (n + 1) p hp
      simp only [List.length_cons]
      omega

/-- C2: the output of `compare_entries` is the `partyA` rows followed by one
Unmatched row for each `partyB` entry whose index was never consumed, taken
in `partyB`'s original order (a sublist of `partyB` mapped to its Unmatched
rows); and in every one-sided row the absent side's amount, date and raw
fields are the empty string. -/
theorem compare_leftover_rows (p1 p2 : List Entry) (crit : List String) :
    compare_entries p1 p2 crit =
      (compareLoop crit p2 p1 []).1 ++
        ((pyEnumFrom 0 p2).filter
            (fun p => !((compareLoop crit p2 p1 []).2.contains p.1))).map
          (fun p => unmatchedRow2 p.2) ∧
    List.Sublist
      (((pyEnumFrom 0 p2).filter
          (fun p => !((compareLoop crit p2 p1 []).2.contains p.1))).map
        (fun p => unmatchedRow2 p.2))
      (p2.map unmatchedRow2) ∧
    (∀ e, (unmatchedRow2 e).Party1_Amount = "" ∧
      (unmatchedRow2 e).Party1_Date = "" ∧
      (unmatchedRow2 e).Party1_Credit = "" ∧
      (unmatchedRow2 e).status = "❌ No Match") ∧
    (∀ e, (unmatchedRow1 e).Party2_Amount = "" ∧
      (unmatchedRow1 e).Party2_Date = "" ∧
      (unmatchedRow1 e).Party2_Debit = "" ∧
      (unmatchedRow1 e).status = "❌ No Match") := by
  refine ⟨rfl, ?_, fun e => ⟨rfl, rfl, rfl, rfl⟩, fun e => ⟨rfl, rfl, rfl, rfl⟩⟩
  have h1 : List.Sublist
      ((pyEnumFrom 0 p2).filter
        (fun p => !((compareLoop crit p2 p1 []).2.contains p.1)))
      (pyEnumFrom 0 p2) := List.filter_sublist _
  have h2 := h1.map (fun p => unmatchedRow2 p.2)
  have h3 : ∀ (n : Nat) (l : List Entry),
      (pyEnumFrom n l).map (fun p => unmatchedRow2 p.2) =
        l.map unmatchedRow2 := by
    intro n l
    induction l generalizing n with
    | nil => rfl
    | cons a t ih => simp [pyEnumFrom, ih]
  rwa [h3 0 p2] at h2

/-! ### Claim C6 -/

theorem contains_false_not_mem (l : List Nat) (a : Nat)
    (h : l.contains a = false) : a ∉ l := by
  intro hmem
  have h' : List.elem a l = false := h
  rw [List.elem_iff.mpr hmem] at h'
  exact Bool.noConfusion h'

theorem contains_erase_ne (l : List Nat) (a b : Nat) (h : a ≠ b) :
    (l.erase b).contains a = l.contains a := by
  cases hc : l.contains a with
  | true => exact List.elem_iff.mpr ((List.mem_erase_of_ne h).mpr (List.elem_iff.mp hc))
  | false =>
    cases hc2 : (l.erase b).contains a with
    | false => rfl
    | true =>
      have h3 : a ∈ l := List.mem_of_mem_erase (List.elem_iff.mp hc2)
      have h4 : List.elem a l = false := hc
      rw [List.elem_iff.mpr h3] at h4
      exact Bool.noConfusion h4

theorem compareLoop_rows_length (crit : List String) (p2 : List Entry) :
    ∀ (p1 : List Entry) (consumed : List Nat),
    (compareLoop crit p2 p1 consumed).1.length = p1.length := by
  intro p1
  induction p1 with
  | nil => intro consumed; rfl
  | cons e1 rest ih =>
    intro consumed
    cases h : findMatch crit e1 p2 consumed with
    | some je =>
      obtain ⟨j, e2⟩ := je
      simp [compareLoop, h, ih]
    | none => simp [compareLoop, h, ih]

theorem matchedRow_is_matched (e1 e2 : Entry) :
    ((matchedRow e1 e2).status == "✅ Match") = true := rfl

theorem unmatchedRow1_not_matched (e : Entry) :
    ((unmatchedRow1 e).status == "✅ Match") = false := rfl

theorem unmatchedRow2_not_matched (e : Entry) :
    ((unmatchedRow2 e).status == "✅ Match") = false := rfl

theorem compareLoop_matched_count (crit : List String) (p2 : List Entry) :
    ∀ (p1 : List Entry) (consumed : List Nat),
    ((compareLoop crit p2 p1 consumed).1.filter
        (fun r => r.status == "✅ Match")).length + consumed.length =
      (compareLoop crit p2 p1 consumed).2.length := by
  intro p1
  induction p1 with
  | nil => intro consumed; simp [compareLoop]
  | cons e1 rest ih =>
    intro consumed
    cases h : findMatch crit e1 p2 consumed with
    | some je =>
      obtain ⟨j, e2⟩ := je
      have hrec := ih (j :: consumed)
      simp only [compareLoop, h, List.filter_cons, matchedRow_is_matched,
        if_true, List.length_cons] at hrec ⊢
      omega
    | none =>
      have hrec := ih consumed
      simp only [compareLoop, h, List.filter_cons, unmatchedRow1_not_matched,
        Bool.false_eq_true, if_false] at hrec ⊢
      omega

theorem compareLoop_consumed_good (crit : List String) (p2 : List Entry) :
    ∀ (p1 : List Entry) (consumed : List Nat), consumed.Nodup →
    (∀ j ∈ consumed, j < p2.length) →
    (compareLoop crit p2 p1 consumed).2.Nodup ∧
      ∀ j ∈ (compareLoop crit p2 p1 consumed).2, j < p2.length := by
  intro p1
  induction p1 with
  | nil => intro consumed h1 h2; exact ⟨h1, h2⟩
  | cons e1 rest ih =>
    intro consumed h1 h2
    cases h : findMatch crit e1 p2 consumed with
    | some je =>
      obtain ⟨j, e2⟩ := je
      obtain ⟨hget, hcon, _, _⟩ := findMatch_some_spec crit e1 p2 consumed j e2 h
      have hj : j < p2.length := (List.getElem?_eq_some.mp hget).1
      have hnm : j ∉ consumed := contains_false_not_mem consumed j hcon
      have := ih (j :: consumed) (List.nodup_cons.mpr ⟨hnm, h1⟩)
        (fun x hx => by
          rcases List.mem_cons.mp hx with hx | hx
          · subst hx; exact hj
          · exact h2 x hx)
      simpa [compareLoop, h] using this
    | none =>
      have := ih consumed h1 h2
      simpa [compareLoop, h] using this

theorem pyEnum_filter_count : ∀ (l : List Entry) (n : Nat) (C : List Nat),
    C.Nodup → (∀ j ∈ C, n ≤ j ∧ j < n + l.length) →
    ((pyEnumFrom n l).filter (fun p => !(C.contains p.1))).length + C.length =
      l.length := by
  intro l
  induction l with
  | nil =>
    intro n C _ hb
    cases C with
    | nil => simp [pyEnumFrom]
    | cons a t =>
      exact absurd (hb a (by simp))
        (by simp only [List.length_nil, Nat.add_zero]; omega)
  | cons e rest ih =>
    intro n C hnd hb
    cases hn : C.contains n with
    | true =>
      have hmem : n ∈ C := List.elem_iff.mp hn
      have hcongr : ∀ p ∈ pyEnumFrom (n + 1) rest,
          (!(C.contains p.1)) = (!((C.erase n).contains p.1)) := by
        intro p hp
        have hbd := pyEnumFrom_fst_bounds rest (n + 1) p hp
        have hne : p.1 ≠ n := by omega
        rw [contains_erase_ne C p.1 n hne]
      have hIH := ih (n + 1) (C.erase n) (hnd.erase n)
        (fun j hj => by
          have hjC := List.mem_of_mem_erase hj
          have hjne : j ≠ n := by
            intro hh
            subst hh
            exact List.Nodup.not_mem_erase hnd hj
          have hbj := hb j hjC
          simp only [List.length_cons] at hbj
          exact ⟨by omega, by omega⟩)
      have hlen : C.length = (C.erase n).length + 1 := by
        have h1 := List.length_erase_of_mem hmem
        have h2 := List.length_pos.mpr (List.ne_nil_of_mem hmem)
        omega
      simp only [pyEnumFrom, List.filter_cons, hn, Bool.not_true,
        Bool.false_eq_true, if_false]
      rw [List.filter_congr hcongr]
      simp only [List.length_cons]
      omega
    | false =>
      have hIH := ih (n + 1) C hnd
        (fun j hj => by
          have hjne : j ≠ n := by
            intro hh
            exact contains_false_not_mem C n hn (hh ▸ hj)
          have := hb j hj
          simp only [List.length_cons] at this
          exact ⟨by omega, by omega⟩)
      simp only [pyEnumFrom, List.filter_cons, hn, Bool.not_false, if_true]
      simp only [List.length_cons]
      omega

theorem tail_no_matched (p2 : List Entry) (C : List Nat) :
    ((((pyEnumFrom 0 p2).filter (fun p => !(C.contains p.1))).map
        (fun p => unmatchedRow2 p.2)).filter
      (fun r => r.status == "✅ Match")) = [] := by
  rw [List.filter_eq_nil_iff]
  intro r hr
  obtain ⟨p, _, rfl⟩ := List.mem_map.mp hr
  simp [unmatchedRow2_not_matched]

/-- C6: row conservation — the number of output rows of `compare_entries`
plus the number of matched pairs (the Matched rows) equals
`len(partyA) + len(partyB)`; equivalently the row count is
`len(partyA) + len(partyB)` minus the number of matched pairs. -/
theorem compare_row_conservation (p1 p2 : List Entry) (crit : List String) :
    (compare_entries p1 p2 crit).length +
      ((compare_entries p1 p2 crit).filter
        (fun r => r.status == "✅ Match")).length =
      p1.length + p2.length := by
  have hA := compareLoop_rows_length crit p2 p1 []
  have hM := compareLoop_matched_count crit p2 p1 []
  simp only [List.length_nil, Nat.add_zero] at hM
  have hG := compareLoop_consumed_good crit p2 p1 [] (by simp) (by simp)
  have hT := pyEnum_filter_count p2 0 (compareLoop crit p2 p1 []).2 hG.1
    (fun j hj => ⟨Nat.zero_le j, by simpa using hG.2 j hj⟩)
  have hN := tail_no_matched p2 (compareLoop crit p2 p1 []).2
  simp only [compare_entries, List.length_append, List.filter_append,
    List.length_map]
  rw [hN]
  simp only [List.length_nil, List.length_map]
  omega

/-! ### Claim C7 -/

theorem comparePairsLoop_consumed (crit : List String) (p2 : List Entry) :
    ∀ (p1 : List Entry) (i : Nat) (consumed : List Nat),
    (comparePairsLoop crit p2 i p1 consumed).2 =
      (compareLoop crit p2 p1 consumed).2 := by
  intro p1
  induction p1 with
  | nil => intro i consumed; rfl
  | cons e1 rest ih =>
    intro i consumed
    cases h : findMatch crit e1 p2 consumed with
    | some je =>
      obtain ⟨j, e2⟩ := je
      simp [comparePairsLoop, compareLoop, h, ih]
    | none => simp [comparePairsLoop, compareLoop, h, ih]

theorem comparePairs_fst_bounds (crit : List String) (p2 : List Entry) :
    ∀ (p1 : List Entry) (i : Nat) (consumed : List Nat) (x : Nat × Nat),
    x ∈ (comparePairsLoop crit p2 i p1 consumed).1 →
    i ≤ x.1 ∧ x.1 < i + p1.length := by
  intro p1
  induction p1 with
  | nil => intro i consumed x hx; simp [comparePairsLoop] at hx
  | cons e1 rest ih =>
    intro i consumed x hx
    cases h : findMatch crit e1 p2 consumed with
    | some je =>
      obtain ⟨j, e2⟩ := je
      simp only [comparePairsLoop, h, List.mem_cons] at hx
      rcases hx with hx | hx
      · subst hx
        simp only [List.length_cons]
        exact ⟨Nat.le_refl i, by omega⟩
      · have := ih (i + 1) (j :: consumed) x hx
        simp only [List.length_cons]
        omega
    | none =>
      simp only [comparePairsLoop, h] at hx
      have := ih (i + 1) consumed x hx
      simp only [List.length_cons]
      omega

theorem comparePairs_fst_nodup (crit : List String) (p2 : List Entry) :
    ∀ (p1 : List Entry) (i : Nat) (consumed : List Nat),
    ((comparePairsLoop crit p2 i p1 consumed).1.map Prod.fst).Nodup := by
  intro p1
  induction p1 with
  | nil => intro i consumed; simp [comparePairsLoop]
  | cons e1 rest ih =>
    intro i consumed
    cases h : findMatch crit e1 p2 consumed with
    | some je =>
      obtain ⟨j, e2⟩ := je
      simp only [comparePairsLoop, h, List.map_cons]
      refine List.nodup_cons.mpr ⟨?_, ih (i + 1) (j :: consumed)⟩
      intro hmem
      obtain ⟨x, hx, hxe⟩ := List.mem_map.mp hmem
      have := comparePairs_fst_bounds crit p2 rest (i + 1) (j :: consumed) x hx
      omega
    | none =>
      simp only [comparePairsLoop, h]
      exact ih (i + 1) consumed

theorem comparePairs_snd_good (crit : List String) (p2 : List Entry) :
    ∀ (p1 : List Entry) (i : Nat) (consumed : List Nat),
    (∀ x ∈ (comparePairsLoop crit p2 i p1 consumed).1,
      x.2 ∉ consumed ∧ x.2 < p2.length) ∧
    ((comparePairsLoop crit p2 i p1 consumed).1.map Prod.snd).Nodup := by
  intro p1
  induction p1 with
  | nil => intro i consumed; simp [comparePairsLoop]
  | cons e1 rest ih =>
    intro i consumed
    cases h : findMatch crit e1 p2 consumed with
    | some je =>
      obtain ⟨j, e2⟩ := je
      obtain ⟨hget, hcon, _, _⟩ := findMatch_some_spec crit e1 p2 consumed j e2 h
      have hj : j < p2.length := (List.getElem?_eq_some.mp hget).1
      have hjn : j ∉ consumed := contains_false_not_mem consumed j hcon
      obtain ⟨ih1, ih2⟩ := ih (i + 1) (j :: consumed)
      constructor
      · intro x hx
        simp only [comparePairsLoop, h, List.mem_cons] at hx
        rcases hx with hx | hx
        · subst hx
          exact ⟨hjn, hj⟩
        · have := ih1 x hx
          exact ⟨fun hm => this.1 (List.mem_cons_of_mem j hm), this.2⟩
      · simp only [comparePairsLoop, h, List.map_cons]
        refine List.nodup_cons.mpr ⟨?_, ih2⟩
        intro hmem
        obtain ⟨x, hx, hxe⟩ := List.mem_map.mp hmem
        exact (ih1 x hx).1 (hxe ▸ List.mem_cons_self j consumed)
    | none =>
      simp only [comparePairsLoop, h]
      exact ih (i + 1) consumed

/-- C7: the matched pairs produced by the reconciliation run — recorded by
the instrumented loop `comparePairsLoop`, which consumes exactly as
`compareLoop` does — form a bijection between a subset of `partyA` positions
and a subset of `partyB` positions: the `partyA` positions are pairwise
distinct, the `partyB` positions are pairwise distinct, and every pair is
within bounds. -/
theorem compare_matching_bijection (p1 p2 : List Entry) (crit : List String) :
    ((comparePairsLoop crit p2 0 p1 []).1.map Prod.fst).Nodup ∧
    ((comparePairsLoop crit p2 0 p1 []).1.map Prod.snd).Nodup ∧
    (∀ x ∈ (comparePairsLoop crit p2 0 p1 []).1,
      x.1 < p1.length ∧ x.2 < p2.length) ∧
    (comparePairsLoop crit p2 0 p1 []).2 = (compareLoop crit p2 p1 []).2 := by
  refine ⟨comparePairs_fst_nodup crit p2 p1 0 [],
    (comparePairs_snd_good crit p2 p1 0 []).2, ?_,
    comparePairsLoop_consumed crit p2 p1 0 []⟩
  intro x hx
  have h1 := comparePairs_fst_bounds crit p2 p1 0 [] x hx
  have h2 := ((comparePairs_snd_good crit p2 p1 0 []).1 x hx).2
  exact ⟨by omega, h2⟩

/-- Witness for C7 at the greedy example: the recorded pair list is
`[(0, 0)]`, whose position sides are trivially duplicate-free and in
bounds. -/
theorem compare_matching_bijection_witness :
    ((comparePairsLoop [] [exEntryBX, exEntryBY] 0 [exEntryA] []).1.map
      Prod.snd).Nodup ∧ (0 < 1 ∧ 0 < 2) :=
  ⟨(compare_matching_bijection [exEntryA] [exEntryBX, exEntryBY] []).2.1,
   (compare_matching_bijection [exEntryA] [exEntryBX, exEntryBY] []).2.2.1
     (0, 0) (by decide)⟩

/-! ### Claim C4 -/

/-- C4: the date criterion holds iff both date strings parse under
`"%d/%m/%Y"` as valid calendar dates and the two dates are at most one
calendar day apart; a string that fails to parse — the empty string
included — simply makes the criterion false (the source catches the
exception), never an error. -/
theorem date_criterion_tolerant (d1s d2s : String) :
    (is_date_match d1s d2s = true ↔
      ∃ d1 d2, parse_date_safe d1s = some d1 ∧ parse_date_safe d2s = some d2 ∧
        (toOrdinal d1 - toOrdinal d2).natAbs ≤ 1) ∧
    is_date_match "" d2s = false ∧ is_date_match d1s "" = false := by
  have h0 : parse_date_safe "" = none := rfl
  refine ⟨⟨?_, ?_⟩, ?_, ?_⟩
  · intro h
    cases h1 : parse_date_safe d1s with
    | none => rw [is_date_match, h1] at h; exact Bool.noConfusion h
    | some d1 =>
      cases h2 : parse_date_safe d2s with
      | none => rw [is_date_match, h1, h2] at h; exact Bool.noConfusion h
      | some d2 =>
        rw [is_date_match, h1, h2] at h
        exact ⟨d1, d2, rfl, rfl, of_decide_eq_true h⟩
  · rintro ⟨d1, d2, h1, h2, h3⟩
    rw [is_date_match, h1, h2]
    exact decide_eq_true h3
  · cases h2 : parse_date_safe d2s with
    | none => rw [is_date_match, h0, h2]
    | some d => rw [is_date_match, h0, h2]
  · cases h1 : parse_date_safe d1s with
    | none => rw [is_date_match, h1, h0]
    | some d => rw [is_date_match, h1, h0]

/-- Witness for C4: the spec's date-tolerance example — `01/01/2024` and
`02/01/2024` satisfy the criterion, `01/01/2024` and `05/01/2024` do not. -/
theorem date_criterion_tolerant_witness :
    is_date_match "01/01/2024" "02/01/2024" = true ∧
    is_date_match "01/01/2024" "05/01/2024" = false ∧
    is_date_match "" "01/01/2024" = false :=
  ⟨(date_criterion_tolerant "01/01/2024" "02/01/2024").1.mpr
     ⟨(2024, 1, 1), (2024, 1, 2), by decide, by decide, by decide⟩,
   by decide,
   (date_criterion_tolerant "whatever" "01/01/2024").2.1⟩

/-! ### Claim C9 -/

/-- C9: the column classifier assigns every line to exactly one column —
left iff `x < W/2`, right iff not — and is a pure function of `(x, W)`:
equal inputs give equal assignments. -/
theorem column_partition (x width : ℚ) :
    (classifyColumn x width = Column.left ↔ x < width / 2) ∧
    (classifyColumn x width = Column.right ↔ ¬(x < width / 2)) ∧
    ¬(classifyColumn x width = Column.left ∧
      classifyColumn x width = Column.right) ∧
    (∀ x' width', x' = x → width' = width →
      classifyColumn x' width' = classifyColumn x width) := by
  refine ⟨⟨?_, ?_⟩, ⟨?_, ?_⟩, ?_, ?_⟩
  · intro h
    by_contra hn
    rw [classifyColumn, if_neg hn] at h
    exact Column.noConfusion h
  · intro h
    rw [classifyColumn, if_pos h]
  · intro h hn
    rw [classifyColumn, if_pos hn] at h
    exact Column.noConfusion h
  · intro h
    rw [classifyColumn, if_neg h]
  · rintro ⟨h1, h2⟩
    rw [h1] at h2
    exact Column.noConfusion h2
  · intro x' width' hx hw
    rw [hx, hw]

/-- Witness for C9: a line starting at 10 on a width-100 page goes left, one
starting at 50 goes right. -/
theorem column_partition_witness :
    classifyColumn 10 100 = Column.left ∧ classifyColumn 50 100 = Column.right :=
  ⟨(column_partition 10 100).1.mpr (by norm_num),
   (column_partition 50 100).2.1.mpr (by norm_num)⟩

/-! ### Claim C5 -/

/-- Two example entries whose raw text has no extractable bill token. -/
def exNoBill1 : Entry := { Amount := "200.00", Date := "", Raw := "200.00 @@" }

/-- Second such entry, with different raw text. -/
def exNoBill2 : Entry := { Amount := "200.00", Date := "", Raw := "** 200.00" }

/-- C5: with criteria `{BillNo}`, two entries with equal amount strings are
accepted by `is_match`, and reported as one Matched pair by
`compare_entries`, whenever the bill-number extractor returns the same
string on both raw texts — equal-and-empty extractions included. -/
theorem billno_equal_extraction_matches (e1 e2 : Entry)
    (h1 : e1.Amount = e2.Amount)
    (h2 : extract_bill_no e1.Raw = extract_bill_no e2.Raw) :
    is_match ["BillNo"] e1 e2 = true ∧
    compare_entries [e1] [e2] ["BillNo"] = [matchedRow e1 e2] := by
  have hm : is_match ["BillNo"] e1 e2 = true := by
    rw [is_match, if_neg (by simp [h1]), if_neg (by simp), if_neg (by simp [h2])]
  refine ⟨hm, ?_⟩
  have hfm : findMatch ["BillNo"] e1 [e2] [] = some (0, e2) := by
    rw [findMatch, findMatchAux]
    simp [hm]
  simp [compare_entries, compareLoop, hfm, pyEnumFrom]

/-- Witness for C5: two concrete entries with equal amounts and no
extractable bill token (both extractions are `""`) are reported Matched. -/
theorem billno_equal_extraction_matches_witness :
    extract_bill_no "200.00 @@" = "" ∧ extract_bill_no "** 200.00" = "" ∧
    compare_entries [exNoBill1] [exNoBill2] ["BillNo"] =
      [matchedRow exNoBill1 exNoBill2] :=
  ⟨by decide, by decide,
   (billno_equal_extraction_matches exNoBill1 exNoBill2 rfl (by decide)).2⟩

/-! ### Claim C8 -/

/-- C8 counterexample: on the plain ASCII amount token `"500.00"` the
`normalize_amount` variant (Gujarati→Hindi with ASCII-digit deletion) yields
`"."` while the direct Gujarati→ASCII variant followed by the same
extraction yields `"500.00"` — the two variants are not equivalent. -/
theorem normalize_variants_counterexample :
    normalize_amount "500.00" = "." ∧
    normalize_amount_direct "500.00" = "500.00" ∧
    normalize_amount "500.00" ≠ normalize_amount_direct "500.00" :=
  ⟨by decide, by decide, by decide⟩

theorem translate_agree : ∀ (l : List Char),
    (∀ c ∈ l, isAsciiDigit c = false ∧ isGujaratiDigit c = false) →
    gujToHindiDelAscii l = l.map gujToAscii := by
  intro l
  induction l with
  | nil => intro h; rfl
  | cons c t ih =>
    intro h
    have hc := h c (List.mem_cons_self c t)
    have ht := ih fun x hx => h x (List.mem_cons_of_mem c hx)
    simp only [gujToHindiDelAscii, List.filterMap_cons, hc.1, hc.2,
      Bool.false_eq_true, if_false, List.map_cons] at ht ⊢
    rw [ht]
    congr 1
    rw [gujToAscii, if_neg (by simp [hc.2])]

/-- C8 amended: the two normalization variants agree exactly on strings free
of ASCII and Gujarati digits (where both translations are the identity); in
general they differ, because `normalize_amount` deletes ASCII digits and
sends Gujarati digits to Devanagari rather than ASCII. -/
theorem normalize_variants_agree_without_digits (s : String)
    (h : ∀ c ∈ s.toList, isAsciiDigit c = false ∧ isGujaratiDigit c = false) :
    normalize_amount s = normalize_amount_direct s := by
  rw [normalize_amount, normalize_amount_direct, translate_agree s.toList h]

/-- Witness for C8 amended: a digit-free string is normalized identically by
both variants. -/
theorem normalize_variants_agree_without_digits_witness :
    normalize_amount "abc.x" = normalize_amount_direct "abc.x" :=
  normalize_variants_agree_without_digits "abc.x" (by decide)

/-! ### Claim C3 -/

theorem digit_ne_comma (c : Char) (h : isDigitChar c = true) :
    (c != ',') = true := by
  cases hc : c == ',' with
  | false => simp [bne, hc]
  | true =>
    have : c = ',' := eq_of_beq hc
    subst this
    exact absurd h (by decide)

theorem matchAmountAt_some_shape (l m : List Char)
    (h : matchAmountAt l = some m) :
    ∃ run c1 c2, m = run ++ ['.', c1, c2] ∧ run ≠ [] ∧
      (∀ c ∈ run, isAmountChar c = true) ∧
      isDigitChar c1 = true ∧ isDigitChar c2 = true := by
  unfold matchAmountAt at h
  split at h
  · split at h
    · rename_i cdot c1 c2 tail heq hcond
      refine ⟨l.takeWhile isAmountChar, c1, c2, ?_, hcond.2.1, ?_,
        hcond.2.2.1, hcond.2.2.2⟩
      · rw [← hcond.1]
        exact (Option.some.injEq _ _ ▸ h).symm
      · intro c hc
        exact List.mem_takeWhile_imp hc
    · exact Option.noConfusion h
  · exact Option.noConfusion h

theorem findAmount_some_shape : ∀ (l m : List Char), findAmount l = some m →
    ∃ run c1 c2, m = run ++ ['.', c1, c2] ∧ run ≠ [] ∧
      (∀ c ∈ run, isAmountChar c = true) ∧
      isDigitChar c1 = true ∧ isDigitChar c2 = true := by
  intro l
  induction l with
  | nil => intro m h; exact Option.noConfusion h
  | cons c rest ih =>
    intro m h
    rw [findAmount] at h
    cases hm : matchAmountAt (c :: rest) with
    | some m' =>
      rw [hm] at h
      have hmm : m = m' := (Option.some.injEq _ _ ▸ h).symm
      subst hmm
      exact matchAmountAt_some_shape (c :: rest) m hm
    | none =>
      rw [hm] at h
      exact ih m h

/-- C3 amended: `parse_entry` rejects a line precisely when the source's
amount search (pattern `[\d,]+\.\d{2}`, whose pre-dot run may be commas
alone) finds nothing in the translated line; and every entry it produces
has an amount with no commas that ends in a decimal point followed by
exactly two digits. -/
theorem parse_entry_amount_shape (s : String) :
    (findAmount (s.toList.map gujToAscii) = none → parse_entry s = none) ∧
    (∀ e, parse_entry s = some e →
      e.Amount.toList.contains ',' = false ∧
      endsInDotTwoDigits e.Amount = true) := by
  constructor
  · intro h
    rw [parse_entry, h]
  · intro e he
    rw [parse_entry] at he
    cases hfa : findAmount (s.toList.map gujToAscii) with
    | none => rw [hfa] at he; exact Option.noConfusion he
    | some am =>
      rw [hfa] at he
      obtain ⟨run, c1, c2, hm, _, hrun, hc1, hc2⟩ :=
        findAmount_some_shape _ am hfa
      have ha : e.Amount = (am.filter fun c => c != ',').asString := by
        have := (Option.some.injEq _ _ ▸ he)
        rw [← this]
      have hfilter : am.filter (fun c => c != ',') =
          (run.filter fun c => c != ',') ++ ['.', c1, c2] := by
        rw [hm, List.filter_append]
        congr 1
        simp [List.filter_cons, digit_ne_comma c1 hc1, digit_ne_comma c2 hc2]
      constructor
      · rw [ha]
        cases hcont : ((am.filter fun c => c != ',').asString.toList.contains ',') with
        | false => rfl
        | true =>
          exfalso
          have hmem : ',' ∈ (am.filter fun c => c != ',').asString.toList :=
            List.elem_iff.mp hcont
          rw [List.toList_asString] at hmem
          have := List.of_mem_filter hmem
          simp [bne] at this
      · rw [ha]
        rw [endsInDotTwoDigits]
        rw [List.toList_asString, hfilter]
        have hrev : ((run.filter fun c => c != ',') ++ ['.', c1, c2]).reverse =
            c2 :: c1 :: '.' :: (run.filter fun c => c != ',').reverse := by
          simp
        rw [hrev]
        simp [hc1, hc2]

/-- C3 counterexample: the line `",,.12"` contains no token of shape
`\d+\.\d{2}` (no digit precedes the dot), yet `parse_entry` does not return
`None` — the source pattern `[\d,]+\.\d{2}` accepts a pre-dot run of commas
alone, producing the entry with amount `".12"`. -/
theorem parse_entry_plain_token_counterexample :
    hasPlainAmount (",,.12".toList.map gujToAscii) = false ∧
    parse_entry ",,.12" =
      some { Amount := ".12", Date := "", Raw := ",,.12" } :=
  ⟨by decide, by decide⟩

/-- Witness for C3 amended: the entry parsed from `"1,234.56"` has the
comma-free amount `"1234.56"` ending in a dot and two digits. -/
theorem parse_entry_amount_shape_witness :
    ("1234.56".toList.contains ',' = false ∧
      endsInDotTwoDigits "1234.56" = true) :=
  (parse_entry_amount_shape "1,234.56").2
    { Amount := "1234.56", Date := "", Raw := "1,234.56" } (by decide)

/-! ### Claim C10 -/

theorem map_id_on {α : Type} (f : α → α) : ∀ (l : List α),
    (∀ c ∈ l, f c = c) → l.map f = l := by
  intro l
  induction l with
  | nil => intro _; rfl
  | cons c t ih =>
    intro h
    rw [List.map_cons, h c (List.mem_cons_self c t),
      ih fun x hx => h x (List.mem_cons_of_mem c hx)]

theorem takeWhile_append_all (p : Char → Bool) : ∀ (l1 : List Char) (a : Char)
    (l2 : List Char), (∀ c ∈ l1, p c = true) → p a = false →
    (l1 ++ a :: l2).takeWhile p = l1 := by
  intro l1
  induction l1 with
  | nil => intro a l2 _ ha; simp [List.takeWhile_cons, ha]
  | cons c t ih =>
    intro a l2 h ha
    simp only [List.cons_append, List.takeWhile_cons,
      h c (List.mem_cons_self c t), if_true]
    rw [ih a l2 (fun x hx => h x (List.mem_cons_of_mem c hx)) ha]

theorem matchDateAt_some_slash (l m : List Char) (h : matchDateAt l = some m) :
    '/' ∈ l := by
  unfold matchDateAt at h
  split at h
  · rename_i a b s1 c d s2 e f g h10 tail
    split at h
    · rename_i hcond
      simp only [Bool.and_eq_true, beq_iff_eq] at hcond
      have hs1 : s1 = '/' := by tauto
      subst hs1
      simp
    · exact Option.noConfusion h
  · exact Option.noConfusion h

theorem findDate_eq_none_of_no_slash : ∀ (l : List Char),
    (∀ c ∈ l, c ≠ '/') → findDate l = none := by
  intro l
  induction l with
  | nil => intro _; rfl
  | cons c rest ih =>
    intro h
    cases hm : matchDateAt (c :: rest) with
    | some m =>
      exact absurd (matchDateAt_some_slash (c :: rest) m hm)
        (fun hmem => h '/' hmem rfl)
    | none =>
      rw [findDate, hm]
      exact ih fun x hx => h x (List.mem_cons_of_mem c hx)

theorem dev_not_guj (c : Char) (h : isDevanagariDigit c = true) :
    isGujaratiDigit c = false := by
  cases hg : isGujaratiDigit c with
  | false => rfl
  | true =>
    exfalso
    simp only [isDevanagariDigit, Bool.and_eq_true, decide_eq_true_eq] at h
    simp only [isGujaratiDigit, Bool.and_eq_true, decide_eq_true_eq] at hg
    omega

theorem dev_is_digit (c : Char) (h : isDevanagariDigit c = true) :
    isDigitChar c = true := by
  simp [isDigitChar, h]

theorem dev_ne (c : Char) (h : isDevanagariDigit c = true) (a : Char)
    (ha : isDevanagariDigit a = false) : c ≠ a := by
  intro he
  rw [he, ha] at h
  exact Bool.noConfusion h

/-- C10 amended: the parser's normalization translates only the ten Gujarati
digits (to ASCII) and leaves every other character — Devanagari digits
included — unchanged; but because `\d` matches any Unicode decimal digit, a
line that is an amount-shaped token written in Devanagari digits is NOT
dropped: it parses into an entry whose amount retains the Devanagari
digits verbatim. -/
theorem parse_entry_gujarati_only (ds : List Char) (d1 d2 : Char)
    (hne : ds ≠ []) (hds : ∀ c ∈ ds, isDevanagariDigit c = true)
    (h1 : isDevanagariDigit d1 = true) (h2 : isDevanagariDigit d2 = true) :
    (∀ c, isGujaratiDigit c = false → gujToAscii c = c) ∧
    ("૦૧૨૩૪૫૬૭૮૯".toList.map gujToAscii = "0123456789".toList) ∧
    parse_entry (ds ++ ['.', d1, d2]).asString =
      some { Amount := (ds ++ ['.', d1, d2]).asString
             Date := ""
             Raw := (ds ++ ['.', d1, d2]).asString } := by
  refine ⟨fun c hc => by rw [gujToAscii, if_neg (by simp [hc])], by decide, ?_⟩
  have hid : (ds ++ ['.', d1, d2]).asString.toList.map gujToAscii =
      ds ++ ['.', d1, d2] := by
    rw [List.toList_asString]
    refine map_id_on gujToAscii _ ?_
    intro c hc
    rcases List.mem_append.mp hc with hc | hc
    · rw [gujToAscii, if_neg (by simp [dev_not_guj c (hds c hc)])]
    · simp only [List.mem_cons, List.not_mem_nil, or_false] at hc
      rcases hc with rfl | rfl | rfl
      · decide
      · rw [gujToAscii, if_neg (by simp [dev_not_guj _ h1])]
      · rw [gujToAscii, if_neg (by simp [dev_not_guj _ h2])]
  have hrun : (ds ++ ['.', d1, d2]).takeWhile isAmountChar = ds := by
    have h3 : (['.', d1, d2] : List Char) = '.' :: [d1, d2] := rfl
    rw [h3]
    exact takeWhile_append_all isAmountChar ds '.' [d1, d2]
      (fun c hc => by simp [isAmountChar, dev_is_digit c (hds c hc)])
      (by decide)
  have hdrop : (ds ++ ['.', d1, d2]).drop ds.length = ['.', d1, d2] :=
    List.drop_left ds _
  have hmatch : matchAmountAt (ds ++ ['.', d1, d2]) =
      some (ds ++ ['.', d1, d2]) := by
    unfold matchAmountAt
    rw [hrun, hdrop]
    show (if ('.' : Char) = '.' ∧ ds ≠ [] ∧ isDigitChar d1 = true ∧
        isDigitChar d2 = true then some (ds ++ ['.', d1, d2]) else none) =
      some (ds ++ ['.', d1, d2])
    rw [if_pos ⟨rfl, hne, dev_is_digit d1 h1, dev_is_digit d2 h2⟩]
  have hfind : findAmount (ds ++ ['.', d1, d2]) =
      some (ds ++ ['.', d1, d2]) := by
    obtain ⟨c, ds', rfl⟩ : ∃ c ds', ds = c :: ds' := by
      cases ds with
      | nil => exact absurd rfl hne
      | cons c ds' => exact ⟨c, ds', rfl⟩
    rw [List.cons_append] at hmatch ⊢
    rw [findAmount, hmatch]
  have hnoslash : findDate (ds ++ ['.', d1, d2]) = none := by
    refine findDate_eq_none_of_no_slash _ ?_
    intro c hc
    rcases List.mem_append.mp hc with hc | hc
    · exact dev_ne c (hds c hc) '/' (by decide)
    · simp only [List.mem_cons, List.not_mem_nil, or_false] at hc
      rcases hc with rfl | rfl | rfl
      · decide
      · exact dev_ne _ h1 '/' (by decide)
      · exact dev_ne _ h2 '/' (by decide)
  have hfil : (ds ++ ['.', d1, d2]).filter (fun c => c != ',') =
      ds ++ ['.', d1, d2] := by
    refine List.filter_eq_self.mpr ?_
    intro c hc
    rcases List.mem_append.mp hc with hc | hc
    · exact digit_ne_comma c (dev_is_digit c (hds c hc))
    · simp only [List.mem_cons, List.not_mem_nil, or_false] at hc
      rcases hc with rfl | rfl | rfl
      · decide
      · exact digit_ne_comma _ (dev_is_digit _ h1)
      · exact digit_ne_comma _ (dev_is_digit _ h2)
  rw [parse_entry, hid, hfind, hnoslash]
  simp [hfil]

/-- C10 counterexample: the line `"५००.००"`, whose only amount-shaped token
is written in Devanagari digits, is NOT dropped — `parse_entry` returns an
entry (with the Devanagari amount), not `None` as the claim states. -/
theorem parse_entry_devanagari_counterexample :
    parse_entry "५००.००" ≠ none ∧
    parse_entry "५००.००" =
      some { Amount := "५००.००", Date := "", Raw := "५००.००" } :=
  ⟨by decide, by decide⟩

/-- Witness for C10 amended, at the concrete Devanagari token `५००.००`. -/
theorem parse_entry_gujarati_only_witness :
    parse_entry (['५', '०', '०'] ++ ['.', '०', '०']).asString =
      some { Amount := (['५', '०', '०'] ++ ['.', '०', '०']).asString
             Date := ""
             Raw := (['५', '०', '०'] ++ ['.', '०', '०']).asString } :=
  (parse_entry_gujarati_only ['५', '०', '०'] '०' '०' (by decide) (by decide)
    (by decide) (by decide)).2.2

/-! ### Sanity checks of the embedding on concrete inputs -/

theorem sanity_parse_entry :
    parse_entry "abc" = none ∧
    parse_entry "x 1,234.56 y" =
      some { Amount := "1234.56", Date := "", Raw := "x 1,234.56 y" } ∧
    parse_entry "bill 12/05/2024 rs 1,500.00" =
      some { Amount := "1500.00", Date := "12/05/2024",
             Raw := "bill 12/05/2024 rs 1,500.00" } ∧
    parse_entry "૫૦૦.૦૦" =
      some { Amount := "500.00", Date := "", Raw := "500.00" } := by
  refine ⟨by decide, by decide, by decide, by decide⟩

theorem sanity_parse_date_safe :
    parse_date_safe "01/01/2024" = some (2024, 1, 1) ∧
    parse_date_safe "31/02/2024" = none ∧
    parse_date_safe "29/02/2024" = some (2024, 2, 29) ∧
    parse_date_safe "29/02/2023" = none ∧
    parse_date_safe "1/1/2024" = some (2024, 1, 1) ∧
    parse_date_safe "00/01/2024" = none := by
  refine ⟨by decide, by decide, by decide, by decide, by decide, by decide⟩

theorem sanity_toOrdinal :
    toOrdinal (1, 1, 1) = 1 ∧
    toOrdinal (2024, 3, 1) - toOrdinal (2024, 2, 28) = 2 ∧
    toOrdinal (2023, 3, 1) - toOrdinal (2023, 2, 28) = 1 ∧
    toOrdinal (2024, 1, 1) - toOrdinal (2023, 12, 31) = 1 := by
  refine ⟨by decide, by decide, by decide, by decide⟩

theorem sanity_extract_bill_no :
    extract_bill_no "inv123/45 bill" = "INV123/45" ∧
    extract_bill_no "po45/9" = "PO45/9" ∧
    extract_bill_no "ref-12" = "REF-12" ∧
    extract_bill_no "ab-x" = "AB" ∧
    extract_bill_no "500.00 01/02" = "" := by
  refine ⟨by decide, by decide, by decide, by decide, by decide⟩

theorem sanity_compare_entries_greedy :
    compare_entries [exEntryA] [exEntryBX, exEntryBY] [] =
      [matchedRow exEntryA exEntryBX, unmatchedRow2 exEntryBY] := by
  decide
